import Mathlib

/-!
Shallow embedding of the kas per-window input/interaction manager
(`src/event/manager.rs`, `src/traits.rs`, `kas-wgpu/src/window.rs`)
together with theorems settling the spec claims about it.

Machine integers: Rust `u16` values (pan-grab indices, point counts) are
modelled as `Nat` with wrap-around written explicitly modulo `2^16`;
`WidgetId`, `WindowId`, touch ids, button ids and virtual key codes are
modelled as `Nat`; `Coord` as `Int × Int`; `Instant`/`Duration` as `Nat`.
-/

namespace Kas

/-- Rust `u16::MAX`, used by the manager as a "no pan gesture" sentinel. -/
def u16MAX : Nat := 65535

/-- Wrapping decrement of a `u16` value (Rust release-mode `p - 1`). -/
def u16dec (p : Nat) : Nat := (p + 65535) % 65536

/-- Wrapping increment of a `u16` value (Rust release-mode `p + 1`). -/
def u16inc (p : Nat) : Nat := (p + 1) % 65536

/-- Screen coordinate, from `kas::geom::Coord` (two `i32`; overflow plays no
role in any claim, so plain `Int` is used). -/
abbrev Coord : Type := Int × Int

/-- `GrabMode` from `src/event/manager.rs`. -/
inductive GrabMode where
  | grab
  | panFull
  | panScale
  | panRotate
  | panOnly
deriving DecidableEq, Repr, Inhabited

/-- `MouseGrab` from `src/event/manager.rs` (`button: MouseButton` as `Nat`).
`pan_grab` is a `(u16, u16)` pair: gesture list index (or `u16MAX` when no
gesture is attached) and point index within the gesture. -/
structure MouseGrab where
  button : Nat
  repetitions : Nat
  start_id : Nat
  depress : Option Nat
  mode : GrabMode
  pan_grab : Nat × Nat
deriving DecidableEq, Repr, Inhabited

/-- `TouchGrab` from `src/event/manager.rs`. -/
structure TouchGrab where
  start_id : Nat
  depress : Option Nat
  cur_id : Option Nat
  coord : Coord
  mode : GrabMode
  pan_grab : Nat × Nat
deriving DecidableEq, Repr, Inhabited

/-- `MAX_PAN_GRABS` from `src/event/manager.rs`. -/
def MAX_PAN_GRABS : Nat := 2

/-- `PanGrab` from `src/event/manager.rs`. The Rust field
`coords: [(Coord, Coord); 2]` is modelled as an explicit pair of
(start, current) coordinate pairs. -/
structure PanGrab where
  id : Nat
  mode : GrabMode
  source_is_touch : Bool
  n : Nat
  coords : (Coord × Coord) × (Coord × Coord)
deriving DecidableEq, Repr, Inhabited

/-- Read coordinate slot `i` of a `PanGrab`'s `coords` array. -/
def coordsGet (c : (Coord × Coord) × (Coord × Coord)) (i : Nat) : Coord × Coord :=
  if i = 0 then c.1 else c.2

/-- Write coordinate slot `i` of a `PanGrab`'s `coords` array; an index past
the array (only reachable through states the source never constructs) is
ignored. -/
def coordsSet (c : (Coord × Coord) × (Coord × Coord)) (i : Nat) (v : Coord × Coord) :
    (Coord × Coord) × (Coord × Coord) :=
  if i = 0 then (v, c.2) else if i = 1 then (c.1, v) else c

/-- `Pending` from `src/event/manager.rs`: deferred cross-widget
notifications drained after the current call returns. -/
inductive Pending where
  | lostCharFocus (id : Nat)
  | lostSelFocus (id : Nat)
deriving DecidableEq, Repr

/-- `kas::Popup` descriptor (id, parent, direction), per the data model of
the popup stack; `direction` is opaque here. -/
structure Popup where
  id : Nat
  parent : Nat
  direction : Nat
deriving DecidableEq, Repr, Inhabited

/-- Semantic events crossing the manager/element boundary (the subset the
claims mention), from `kas::event::Event`. -/
inductive Event where
  | activate
  | command (cmd : Nat) (shift : Bool)
  | navFocus
deriving DecidableEq, Repr

/-- One accelerator layer: `(alt_bypass, key → widget)` from the
`accel_layers` field of `ManagerState`. -/
structure AccelLayer where
  alt_bypass : Bool
  keys : List (Nat × Nat)
deriving DecidableEq, Repr, Inhabited

/-- The claim-relevant fields of `ManagerState` from `src/event/manager.rs`.
`touch_grab` (a `LinearMap`) and `accel_layers` (a `HashMap`) are modelled
as association lists; `pan_grab` (a `SmallVec`) and `popups` as lists in
insertion order. -/
structure ManagerState where
  modifiers_alt : Bool
  char_focus : Bool
  sel_focus : Option Nat
  nav_focus : Option Nat
  nav_fallback : Option Nat
  hover_icon : Nat
  mouse_grab : Option MouseGrab
  touch_grab : List (Nat × TouchGrab)
  pan_grab : List PanGrab
  accel_layers : List (Nat × AccelLayer)
  popups : List (Nat × Popup)
  popup_removed : List (Nat × Nat)
  pending : List Pending
deriving DecidableEq, Repr

/-- Shell-visible effects of a `Manager` call, in execution order: calls to
`ShellWindow::set_cursor_icon`, widget sends (`widget.send`), window closes
and redraw requests. -/
inductive Effect where
  | setCursorIcon (icon : Nat)
  | sendEvent (id : Nat) (ev : Event)
  | closeWindow (winId : Nat)
  | redraw (id : Nat)
deriving DecidableEq, Repr

namespace ManagerState

/-- `ManagerState::remove_pan` from `src/event/manager.rs` lines 175-190:
remove the pan gesture at `index` from the dense list and decrement (with
`u16` wrap-around) the stored gesture index of the mouse grab and of every
touch grab whose index is `>= index` and is not the `u16MAX` sentinel. -/
def remove_pan (s : ManagerState) (index : Nat) : ManagerState :=
  let fix : Nat × Nat → Nat × Nat := fun p =>
    if index ≤ p.1 ∧ p.1 ≠ u16MAX then (u16dec p.1, p.2) else p
  { s with
    pan_grab := s.pan_grab.eraseIdx index
    mouse_grab := s.mouse_grab.map fun g => { g with pan_grab := fix g.pan_grab }
    touch_grab := s.touch_grab.map fun kg =>
      (kg.1, { kg.2 with pan_grab := fix kg.2.pan_grab }) }

/-- Helper for `set_pan_on`: index of the first pan gesture with the given
widget id (the Rust `for (gi, grab) in self.pan_grab.iter_mut().enumerate()`
search). -/
def findPanIdx (l : List PanGrab) (id : Nat) : Option Nat :=
  l.findIdx? (fun g => g.id = id)

/-- `ManagerState::set_pan_on` from `src/event/manager.rs` lines 137-173.
If a gesture for `id` exists: a source-kind mismatch removes it and a fresh
gesture is pushed; otherwise the point count is incremented (only the first
`MAX_PAN_GRABS` points get a coordinate slot) and `(gesture index, point
index)` is returned. If none exists a fresh gesture with one point is
pushed. -/
def set_pan_on (s : ManagerState) (id : Nat) (mode : GrabMode)
    (source_is_touch : Bool) (coord : Coord) : ManagerState × (Nat × Nat) :=
  let fresh : PanGrab :=
    { id := id, mode := mode, source_is_touch := source_is_touch, n := 1
      coords := ((coord, coord), default) }
  match findPanIdx s.pan_grab id with
  | some gi =>
    let grab := s.pan_grab.getD gi default
    if grab.source_is_touch ≠ source_is_touch then
      let s := s.remove_pan gi
      ({ s with pan_grab := s.pan_grab ++ [fresh] }, (s.pan_grab.length, 0))
    else
      let index := grab.n
      let coords := if index < MAX_PAN_GRABS
        then coordsSet grab.coords index (coord, coord) else grab.coords
      let grab := { grab with coords := coords, n := u16inc index }
      ({ s with pan_grab := s.pan_grab.set gi grab }, (gi, index))
  | none =>
    ({ s with pan_grab := s.pan_grab ++ [fresh] }, (s.pan_grab.length, 0))

/-- One iteration of the coordinate-slot shift loop of `remove_pan_grab`:
`grab.coords[i] = grab.coords[i + 1]`. The `coords` array has
`MAX_PAN_GRABS = 2` slots, so the read of `coords[i + 1]` panics (index out
of bounds) for every `i ≥ 1`; the panic is modelled as `none`, which then
absorbs the rest of the fold. -/
def shiftCoords_step (acc : Option ((Coord × Coord) × (Coord × Coord))) (i : Nat) :
    Option ((Coord × Coord) × (Coord × Coord)) :=
  acc.bind fun c =>
    if i + 1 < MAX_PAN_GRABS then some (coordsSet c i (coordsGet c (i + 1))) else none

/-- Helper for `remove_pan_grab`: the coordinate-slot shift
`for i in g.1..(n - 1) { coords[i] = coords[i + 1] }`. With the two-slot
array the loop moves slot 1 into slot 0 when it runs at `i = 0`, and
panics (modelled as `none`) as soon as an iteration reaches `i ≥ 1`. -/
def shiftCoords (c : (Coord × Coord) × (Coord × Coord)) (lo hi : Nat) :
    Option ((Coord × Coord) × (Coord × Coord)) :=
  (List.range' lo (hi - lo)).foldl shiftCoords_step (some c)

/-- One iteration of the touch-grab fix-up loop at the end of
`ManagerState::remove_pan_grab` (`src/event/manager.rs` lines 207-216): a
touch grab on gesture `g.1` with a point index above the removed point
`g.2` has its point index decremented; when the decremented index equals
`MAX_PAN_GRABS - 1` the vacated coordinate slot of the gesture is reset
from the touch's last-known coordinate. The accumulator carries the
evolving pan-gesture list and the processed touch grabs. -/
def remove_pan_grab_step (g : Nat × Nat)
    (acc : List PanGrab × List (Nat × TouchGrab)) (kg : Nat × TouchGrab) :
    List PanGrab × List (Nat × TouchGrab) :=
  let tg := kg.2
  if tg.pan_grab.1 = g.1 ∧ g.2 < tg.pan_grab.2 then
    let p1 := u16dec tg.pan_grab.2
    let tg := { tg with pan_grab := (tg.pan_grab.1, p1) }
    let pans :=
      if p1 = MAX_PAN_GRABS - 1 then
        match acc.1.get? g.1 with
        | some pg =>
          acc.1.set g.1 { pg with coords := coordsSet pg.coords p1 (tg.coord, tg.coord) }
        | none => acc.1
      else acc.1
    (pans, acc.2 ++ [(kg.1, tg)])
  else (acc.1, acc.2 ++ [kg])

/-- `ManagerState::remove_pan_grab` from `src/event/manager.rs` lines
192-217: decrement the point count of gesture `g.1`; if it reaches zero,
remove the gesture via `remove_pan`; otherwise the always-compiled
`assert!(grab.source_is_touch)` (line 198) aborts on a non-touch gesture
(modelled as `none`), then the gesture's coordinate slots are shifted down
over the removed point — a shift iteration past the two-slot array panics
(modelled as `none`) — and the point index of every touch grab on this
gesture with a larger point index is decremented (resetting the vacated
coordinate slot from the touch's last coordinate). An absent gesture index
is a no-op. A `none` result models a panic: the program aborts with no
resulting state. -/
def remove_pan_grab (s : ManagerState) (g : Nat × Nat) : Option ManagerState :=
  match s.pan_grab.get? g.1 with
  | none => some s
  | some grab =>
    let n := u16dec grab.n
    if n = 0 then
      some (({ s with pan_grab := s.pan_grab.set g.1 { grab with n := n } }).remove_pan g.1)
    else
      if grab.source_is_touch = false then none
      else
        match shiftCoords grab.coords g.2 (n - 1) with
        | none => none
        | some coords2 =>
          let grab := { grab with n := n, coords := coords2 }
          let pans := s.pan_grab.set g.1 grab
          let res := s.touch_grab.foldl (remove_pan_grab_step g) (pans, [])
          some { s with pan_grab := res.1, touch_grab := res.2 }

end ManagerState

namespace Manager

/-- Modelled from the spec: `Manager::set_nav_focus` lives in the missing
`mgr_pub` module. Per spec section 4.3, "Setting character focus to a new
element also sets navigation focus to that element"; the navigation-focus
field is set to the given element. -/
def set_nav_focus (s : ManagerState) (id : Nat) : ManagerState :=
  { s with nav_focus := some id }

/-- `Manager::set_char_focus` from `src/event/manager.rs` lines 443-483.
The Rust early returns are rendered as nested matches; the final
`if let Some(id) = wid { self.state.sel_focus = Some(id) }` is only
reached on the path where `wid` is `some`. -/
def set_char_focus (s : ManagerState) (wid : Option Nat) : ManagerState :=
  let s := match wid with
    | some id => set_nav_focus s id
    | none => s
  if s.sel_focus = wid then
    { s with char_focus := wid.isSome }
  else
    let had_char_focus := s.char_focus
    let s := { s with char_focus := wid.isSome }
    match s.sel_focus with
    | some id =>
      let s := if had_char_focus
        then { s with pending := s.pending ++ [Pending.lostCharFocus id] }
        else s
      match wid with
      | none => s
      | some w =>
        let s := { s with pending := s.pending ++ [Pending.lostSelFocus id] }
        { s with sel_focus := some w }
    | none =>
      match wid with
      | some w => { s with sel_focus := some w }
      | none => s

/-- `Manager::end_mouse_grab` from `src/event/manager.rs` lines 413-429.
The Rust guard `self.state.mouse_grab.as_ref().map(|grab| grab.button !=
button).unwrap_or(true)` followed by `take()` is rendered as one match:
no grab, or a grab with a different button, is a no-op; otherwise the grab
is cleared, the hover cursor icon is restored on the shell, the grab's
start widget is redrawn and its pan-gesture slot is released via
`remove_pan_grab`. A panic inside `remove_pan_grab` propagates (`none`):
the program aborts, so the two shell calls preceding the panic are
subsumed in the abort and no effect list is produced. -/
def end_mouse_grab (s : ManagerState) (button : Nat) :
    Option (ManagerState × List Effect) :=
  match s.mouse_grab with
  | none => some (s, [])
  | some grab =>
    if grab.button ≠ button then some (s, [])
    else
      let s1 := { s with mouse_grab := none }
      (s1.remove_pan_grab grab.pan_grab).map fun s2 =>
        (s2, [Effect.setCursorIcon s.hover_icon, Effect.redraw grab.start_id])

/-- Modelled from the spec: `Manager::request_grab` lives in the missing
`mgr_pub` module. Per spec section 4.2, "Only one press grab may exist at a
time (single-pointer assumption); a second grab request while one is active
is rejected/ignored": a mouse-grab request is stored only when no mouse
grab is active. -/
def request_mouse_grab (s : ManagerState) (g : MouseGrab) : ManagerState :=
  if s.mouse_grab.isSome then s else { s with mouse_grab := some g }

/-- Modelled from the spec: `Manager::close_window` lives in the missing
`mgr_pub` module. Per spec sections 3 and 4.3 it removes the popup with the
given window handle from the popup stack (from anywhere in the stack),
records the (parent, window) pair so that the popup's parent is notified,
and closes the shell window. -/
def close_window (s : ManagerState) (wid : Nat) : ManagerState × List Effect :=
  match s.popups.find? (fun p => p.1 == wid) with
  | some p =>
    ({ s with
        popups := s.popups.filter (fun q => q.1 ≠ wid)
        popup_removed := s.popup_removed ++ [(p.2.parent, wid)] },
     [Effect.closeWindow wid])
  | none => (s, [Effect.closeWindow wid])

/-- The layer-owner chain searched by the accelerator stage of
`Manager::start_key_event` (`src/event/manager.rs` lines 346-349): the
parents of the open popups from the topmost down, then the root widget. -/
def accelChain (s : ManagerState) (rootId : Nat) : List Nat :=
  s.popups.reverse.map (fun p => p.2.parent) ++ [rootId]

/-- The first-match search over the layer-owner chain
(`src/event/manager.rs` lines 350-361): a layer's entries are eligible only
when Alt is held or the layer's `alt_bypass` flag is set; the first eligible
layer containing `vkey` yields `(target, chain position)`. -/
def accelFindAux (alt : Bool) (layers : List (Nat × AccelLayer)) (vkey : Nat) :
    List Nat → Nat → Option (Nat × Nat)
  | [], _ => none
  | id :: rest, i =>
    match layers.lookup id with
    | some layer =>
      if alt ∨ layer.alt_bypass then
        match layer.keys.lookup vkey with
        | some target => some (target, i)
        | none => accelFindAux alt layers vkey rest (i + 1)
      else accelFindAux alt layers vkey rest (i + 1)
    | none => accelFindAux alt layers vkey rest (i + 1)

/-- The accelerator search of `Manager::start_key_event`, combining the
chain and the first-match scan. -/
def accelFind (s : ManagerState) (rootId vkey : Nat) : Option (Nat × Nat) :=
  accelFindAux s.modifiers_alt s.accel_layers vkey (accelChain s rootId) 0

/-- One iteration of the popup-closing loop of the accelerator stage
(`src/event/manager.rs` lines 364-370): close the popup found at position
`last - i` of the current popup stack, accumulating the shell effects.
`last` is the index of the top of the stack before the loop started. -/
def accel_close_step (last : Nat) (acc : ManagerState × List Effect) (i : Nat) :
    ManagerState × List Effect :=
  let wid := (acc.1.popups.getD (last - i) default).1
  let r := close_window acc.1 wid
  (r.1, acc.2 ++ r.2)

/-- The accelerator stage of `Manager::start_key_event`
(`src/event/manager.rs` lines 343-376), reached when no earlier stage
resolved the key: run the accelerator search; on a match found `n` layers
below the top, close the top `n` popups (`self.state.popups[last - i].0`
re-reads the mutated stack, which after `j` closes has the popup originally
at `last - j` on top), then deliver `Event::Activate` to the matched
widget. Response handling and key-depress bookkeeping after delivery are
outside the modelled stage. -/
def accel_stage (s : ManagerState) (rootId vkey : Nat) : ManagerState × List Effect :=
  match accelFind s rootId vkey with
  | none => (s, [])
  | some (target, n) =>
    let cl := (List.range n).foldl (accel_close_step (s.popups.length - 1)) (s, [])
    (cl.1, cl.2 ++ [Effect.sendEvent target Event.activate])

end Manager

/-- One entry of the `timeouts` vector of `kas-wgpu/src/window.rs`:
`(usize, Instant, Option<Duration>)` — callback index, fire instant,
optional repeat period. -/
structure Timeout where
  cb : Nat
  fire : Nat
  period : Option Nat
deriving DecidableEq, Repr, Inhabited

/-- The rescheduling loop `while timeout.1 <= Instant::now() { timeout.1 +=
dur; }` of `Window::timer_resume`: advance `fire` by `d` until it exceeds
`now`. The source loop does not terminate for `d = 0`; the model leaves
`fire` unchanged in that (never constructed) case. -/
def advance (fire d now : Nat) : Nat :=
  if 0 < d ∧ fire ≤ now then advance (fire + d) d now else fire
termination_by now + 1 - fire
decreasing_by omega

/-- `Window::timer_resume` from `kas-wgpu/src/window.rs` lines 132-153,
without the `(pop_action, next_resume)` return packaging: the while/for
loop scans the `timeouts` vector left to right; an entry whose fire instant
equals `instant` is triggered (its callback index is appended to the fired
list) and is rescheduled when periodic or removed (`break` + `remove(i)`,
after which the scan resumes at the same position) when one-shot; all other
entries are kept unchanged. Returns (remaining timeouts, fired callback
indices in scan order). -/
def timer_resume (instant now : Nat) : List Timeout → List Timeout × List Nat
  | [] => ([], [])
  | t :: ts =>
    if t.fire = instant then
      match t.period with
      | some dur =>
        let r := timer_resume instant now ts
        ({ t with fire := advance t.fire dur now } :: r.1, t.cb :: r.2)
      | none =>
        let r := timer_resume instant now ts
        (r.1, t.cb :: r.2)
    else
      let r := timer_resume instant now ts
      (t :: r.1, r.2)

/-- The loop body of `Window::next_resume`: merge one entry's fire instant
into the running minimum. -/
def next_resume_step (next : Option Nat) (t : Timeout) : Option Nat :=
  match next with
  | none => some t.fire
  | some m => some (min m t.fire)

/-- `Window::next_resume` from `kas-wgpu/src/window.rs` lines 157-166: the
minimum fire instant over the `timeouts` vector, `none` when it is empty. -/
def next_resume (ts : List Timeout) : Option Nat :=
  ts.foldl next_resume_step none

/-- An unconfigured widget tree: only the child structure matters for
identifier assignment (`WidgetCore::len` / `WidgetCore::get` expose the
children in order). -/
inductive WTree where
  | node (children : List WTree)

/-- A configured widget tree: every widget carries the `WidgetId` assigned
by the configuration pass (`CoreData.id`, read by `WidgetCore::id`). -/
inductive ITree where
  | node (id : Nat) (children : List ITree)

/-- The widget's numeric identifier (`WidgetCore::id`). -/
def idOf : ITree → Nat
  | .node i _ => i

/-- The widget's children (`WidgetCore::get` over `0..len`). -/
def childrenOf : ITree → List ITree
  | .node _ cs => cs

mutual
/-- Number of widgets in a tree. -/
def sizeT : WTree → Nat
  | .node cs => sizeL cs + 1
/-- Number of widgets in a forest. -/
def sizeL : List WTree → Nat
  | [] => 0
  | t :: ts => sizeT t + sizeL ts
end

mutual
/-- Modelled from the spec: the traversal order of the configuration pass.
The per-widget step is `ConfigureManager::next_id` from
`src/event/manager.rs` lines 531-536 (hand out the counter, then increment
it); the recursion driving it (`configure_recurse`, generated by the derive
macro) is not under `src/`, and is fixed depth-first with children before
self, the order documented by `WidgetCore::walk` in `src/traits.rs` and
required by `WidgetCore::find` (a parent rejects every id greater than its
own). Returns the configured tree and the next free identifier. -/
def assignTree : WTree → Nat → ITree × Nat
  | .node cs, next =>
    let r := assignList cs next
    (.node r.2 r.1, r.2 + 1)
/-- Identifier assignment over a forest, left to right. -/
def assignList : List WTree → Nat → List ITree × Nat
  | [], next => ([], next)
  | t :: ts, next =>
    let r1 := assignTree t next
    let r2 := assignList ts r1.2
    (r1.1 :: r2.1, r2.2)
end

mutual
/-- `WidgetCore::find` from `src/traits.rs` lines 89-106: the searched id
matches this widget, or exceeds it (not in this subtree), or is looked up
among the children. -/
def findW : ITree → Nat → Option ITree
  | .node tid cs, id =>
    if id = tid then some (.node tid cs)
    else if tid < id then none
    else findList cs id
/-- The child loop of `WidgetCore::find`: skip children with smaller ids
(`if id > w.id() { continue; }`), then recurse into the first remaining
child — its result is returned as is (`return w.find(id)`). -/
def findList : List ITree → Nat → Option ITree
  | [], _ => none
  | w :: ws, id =>
    if idOf w < id then findList ws id
    else findW w id
end

mutual
/-- The identifiers of a subtree in depth-first children-before-self
traversal order. -/
def postIds : ITree → List Nat
  | .node i cs => postIdsL cs ++ [i]
/-- Traversal-order identifiers of a forest. -/
def postIdsL : List ITree → List Nat
  | [] => []
  | t :: ts => postIds t ++ postIdsL ts
end

mutual
/-- All subtrees of a tree (the tree itself included). -/
def subtrees : ITree → List ITree
  | .node i cs => subtreesL cs ++ [.node i cs]
/-- All subtrees of a forest. -/
def subtreesL : List ITree → List ITree
  | [] => []
  | t :: ts => subtrees t ++ subtreesL ts
end

mutual
/-- The configured-tree shape invariant: the subtree occupies exactly the
identifier interval `[lo, hi)`, its root carrying `hi - 1`. -/
def Spans : ITree → Nat → Nat → Prop
  | .node i cs, lo, hi => hi = i + 1 ∧ lo ≤ i ∧ SpansL cs lo i
/-- Forest version of `Spans`: consecutive children occupy consecutive
identifier intervals covering `[lo, hi)`. -/
def SpansL : List ITree → Nat → Nat → Prop
  | [], lo, hi => hi = lo
  | t :: ts, lo, hi => ∃ mid, Spans t lo mid ∧ SpansL ts mid hi
end

/-- A concrete interaction state with no focus, grabs, gestures, popups or
pending notifications, used as the base input of witnesses and
counterexamples. -/
def state0 : ManagerState where
  modifiers_alt := false
  char_focus := false
  sel_focus := none
  nav_focus := none
  nav_fallback := none
  hover_icon := 0
  mouse_grab := none
  touch_grab := []
  pan_grab := []
  accel_layers := []
  popups := []
  popup_removed := []
  pending := []

/-- A concrete touch-sourced pan gesture for widget `id` with `n` points. -/
def mkPan (id n : Nat) : PanGrab :=
  ⟨id, .panFull, true, n, (((0, 0), (0, 0)), ((0, 0), (0, 0)))⟩

/-- A concrete mouse grab with the given button and pan-gesture reference. -/
def mkMouse (button p1 p2 : Nat) : MouseGrab :=
  ⟨button, 0, 3, none, .grab, (p1, p2)⟩

/-- A concrete touch grab with the given pan-gesture reference. -/
def mkTouch (p1 p2 : Nat) : TouchGrab :=
  ⟨4, none, none, (0, 0), .panFull, (p1, p2)⟩

/-- The character-focus invariant: whenever the character-focus flag is
set, selection focus holds the element that last received character focus
(`target`). Matches the comment on the `char_focus` field of
`ManagerState`: "char focus is on same widget as sel_focus; otherwise its
value is ignored". -/
def CharFocusInv (s : ManagerState) (target : Option Nat) : Prop :=
  s.char_focus = true → s.sel_focus = target ∧ target.isSome = true

instance (s : ManagerState) (target : Option Nat) : Decidable (CharFocusInv s target) := by
  unfold CharFocusInv
  infer_instance

/-- A spanning subtree carries the interval's last identifier at its root
and its root id is at least the lower bound. -/
theorem spans_idOf {t : ITree} {lo hi : Nat} (h : Spans t lo hi) :
    hi = idOf t + 1 ∧ lo ≤ idOf t := by
  cases t with
  | node i cs =>
    unfold Spans at h
    exact ⟨h.1, h.2.1⟩

/-- A spanning subtree occupies a nonempty interval. -/
theorem spans_lt {t : ITree} {lo hi : Nat} (h : Spans t lo hi) : lo < hi := by
  obtain ⟨h1, h2⟩ := spans_idOf h
  omega

/-- A spanning forest occupies a (possibly empty) interval. -/
theorem spansL_le : ∀ {ts : List ITree} {lo hi : Nat}, SpansL ts lo hi → lo ≤ hi
  | [], lo, hi, h => by
    unfold SpansL at h
    omega
  | t :: ts, lo, hi, h => by
    unfold SpansL at h
    obtain ⟨mid, hw, hws⟩ := h
    have h1 := spans_lt hw
    have h2 := spansL_le hws
    omega

mutual
/-- The identifier counter advances by exactly the subtree size. -/
theorem assignTree_snd : ∀ (t : WTree) (n : Nat), (assignTree t n).2 = n + sizeT t
  | .node cs, n => by
    have h := assignList_snd cs n
    simp only [assignTree, sizeT, h]
    omega
/-- Forest version of `assignTree_snd`. -/
theorem assignList_snd : ∀ (ts : List WTree) (n : Nat), (assignList ts n).2 = n + sizeL ts
  | [], n => by simp [assignList, sizeL]
  | t :: ts, n => by
    have h1 := assignTree_snd t n
    have h2 := assignList_snd ts (assignTree t n).2
    simp only [assignList, sizeL]
    rw [h1] at h2
    rw [h1, h2]
    omega
end

mutual
/-- The configuration pass establishes the `Spans` invariant: the subtree
configured from counter `n` occupies exactly `[n, counter-after)`. -/
theorem assignTree_spans : ∀ (t : WTree) (n : Nat),
    Spans (assignTree t n).1 n (assignTree t n).2
  | .node cs, n => by
    have h := assignList_spans cs n
    simp only [assignTree]
    unfold Spans
    exact ⟨rfl, spansL_le h, h⟩
/-- Forest version of `assignTree_spans`. -/
theorem assignList_spans : ∀ (ts : List WTree) (n : Nat),
    SpansL (assignList ts n).1 n (assignList ts n).2
  | [], n => by
    simp only [assignList]
    unfold SpansL
    rfl
  | t :: ts, n => by
    simp only [assignList]
    unfold SpansL
    exact ⟨(assignTree t n).2, assignTree_spans t n,
      assignList_spans ts (assignTree t n).2⟩
end

mutual
/-- Under `Spans`, the traversal-order identifier list of a subtree is the
contiguous range `[lo, hi)`. -/
theorem spans_postIds : ∀ (t : ITree) (lo hi : Nat), Spans t lo hi →
    postIds t = List.range' lo (hi - lo)
  | .node i cs, lo, hi, h => by
    unfold Spans at h
    obtain ⟨h1, h2, h3⟩ := h
    have hc := spansL_postIds cs lo i h3
    simp only [postIds, hc]
    subst h1
    rw [show i + 1 - lo = (i - lo) + 1 by omega, List.range'_1_concat,
      show lo + (i - lo) = i by omega]
/-- Forest version of `spans_postIds`. -/
theorem spansL_postIds : ∀ (ts : List ITree) (lo hi : Nat), SpansL ts lo hi →
    postIdsL ts = List.range' lo (hi - lo)
  | [], lo, hi, h => by
    unfold SpansL at h
    subst h
    simp [postIdsL]
  | t :: ts, lo, hi, h => by
    unfold SpansL at h
    obtain ⟨mid, hw, hws⟩ := h
    have h1 := spans_postIds t lo mid hw
    have h2 := spansL_postIds ts mid hi hws
    have hlm := spans_lt hw
    have hmh := spansL_le hws
    simp only [postIdsL, h1, h2]
    have hap := List.range'_append_1 lo (mid - lo) (hi - mid)
    rw [show lo + (mid - lo) = mid by omega,
      show hi - mid + (mid - lo) = hi - lo by omega] at hap
    exact hap
end

mutual
/-- Under `Spans`, every subtree's root identifier lies in `[lo, hi)`. -/
theorem spans_subtree_bounds : ∀ (t : ITree) (lo hi : Nat), Spans t lo hi →
    ∀ d ∈ subtrees t, lo ≤ idOf d ∧ idOf d < hi
  | .node i cs, lo, hi, h, d, hd => by
    unfold Spans at h
    obtain ⟨h1, h2, h3⟩ := h
    simp only [subtrees, List.mem_append, List.mem_singleton] at hd
    rcases hd with hd | hd
    · have := spansL_subtree_bounds cs lo i h3 d hd
      omega
    · subst hd
      simp only [idOf]
      omega
/-- Forest version of `spans_subtree_bounds`. -/
theorem spansL_subtree_bounds : ∀ (ts : List ITree) (lo hi : Nat), SpansL ts lo hi →
    ∀ d ∈ subtreesL ts, lo ≤ idOf d ∧ idOf d < hi
  | [], lo, hi, _, d, hd => by
    simp [subtreesL] at hd
  | t :: ts, lo, hi, h, d, hd => by
    unfold SpansL at h
    obtain ⟨mid, hw, hws⟩ := h
    simp only [subtreesL, List.mem_append] at hd
    rcases hd with hd | hd
    · have := spans_subtree_bounds t lo mid hw d hd
      have := spansL_le hws
      omega
    · have := spansL_subtree_bounds ts mid hi hws d hd
      have := spans_lt hw
      omega
end

mutual
/-- Correctness of `WidgetCore::find` on a spanning subtree: identifiers
outside `[lo, hi)` are rejected, identifiers inside are resolved to a
subtree carrying exactly that identifier. -/
theorem spans_find : ∀ (t : ITree) (lo hi : Nat), Spans t lo hi → ∀ (id : Nat),
    (id < lo ∨ hi ≤ id → findW t id = none) ∧
    (lo ≤ id → id < hi → ∃ st, findW t id = some st ∧ idOf st = id ∧ st ∈ subtrees t)
  | .node i cs, lo, hi, h, id => by
    unfold Spans at h
    obtain ⟨h1, h2, h3⟩ := h
    by_cases hei : id = i
    · subst hei
      constructor
      · intro hc
        omega
      · intro _ _
        refine ⟨.node id cs, ?_, rfl, ?_⟩
        · simp [findW]
        · simp [subtrees]
    · by_cases hgt : i < id
      · constructor
        · intro _
          simp [findW, hei, hgt]
        · intro hle hlt
          omega
      · have hlt : id < i := by omega
        have hrec := spansL_find cs lo i h3 id
        constructor
        · intro hc
          have hin : id < lo := by omega
          simp only [findW, if_neg hei, if_neg hgt]
          exact hrec.1 (Or.inl hin)
        · intro hle _
          obtain ⟨st, hst, hid, hmem⟩ := hrec.2 hle hlt
          refine ⟨st, ?_, hid, ?_⟩
          · simp only [findW, if_neg hei, if_neg hgt]
            exact hst
          · simp only [subtrees, List.mem_append]
            exact Or.inl hmem
/-- Forest version of `spans_find` for the child loop of
`WidgetCore::find`. -/
theorem spansL_find : ∀ (ts : List ITree) (lo hi : Nat), SpansL ts lo hi → ∀ (id : Nat),
    (id < lo ∨ hi ≤ id → findList ts id = none) ∧
    (lo ≤ id → id < hi → ∃ st, findList ts id = some st ∧ idOf st = id ∧ st ∈ subtreesL ts)
  | [], lo, hi, h, id => by
    unfold SpansL at h
    subst h
    constructor
    · intro _
      rfl
    · intro hle hlt
      omega
  | w :: ws, lo, hi, h, id => by
    unfold SpansL at h
    obtain ⟨mid, hw, hws⟩ := h
    have hio := spans_idOf hw
    have hmle := spansL_le hws
    by_cases hskip : idOf w < id
    · have hrec := spansL_find ws mid hi hws id
      constructor
      · intro hc
        simp only [findList, if_pos hskip]
        refine hrec.1 ?_
        rcases hc with hc | hc
        · left
          omega
        · right
          exact hc
      · intro hle hlt
        obtain ⟨st, hst, hid, hmem⟩ := hrec.2 (by omega) hlt
        refine ⟨st, ?_, hid, ?_⟩
        · simp only [findList, if_pos hskip]
          exact hst
        · simp only [subtreesL, List.mem_append]
          exact Or.inr hmem
    · have hrec := spans_find w lo mid hw id
      have hidm : id < mid := by omega
      constructor
      · intro hc
        simp only [findList, if_neg hskip]
        refine hrec.1 ?_
        rcases hc with hc | hc
        · left
          exact hc
        · right
          omega
      · intro hle _
        obtain ⟨st, hst, hid, hmem⟩ := hrec.2 hle hidm
        refine ⟨st, ?_, hid, ?_⟩
        · simp only [findList, if_neg hskip]
          exact hst
        · simp only [subtreesL, List.mem_append]
          exact Or.inl hmem
end

/-- In-range `u16` decrement: for `1 ≤ p ≤ 65535` the wrapping decrement is
the plain decrement. -/
theorem u16dec_of_pos {p : Nat} (h1 : 1 ≤ p) (h2 : p ≤ 65535) : u16dec p = p - 1 := by
  unfold u16dec
  omega

/-- Decrementing the `u16` zero wraps to the `u16MAX` sentinel. -/
theorem u16dec_zero : u16dec 0 = u16MAX := by decide

/-- C1 counterexample. The claim states that a grab whose stored
pan-gesture index equals the removed index is removed. Concretely: a state
with two pan gestures and a mouse grab storing gesture index 1; after
`remove_pan 1` the mouse grab is still present — its stored index was
decremented to 0 (now aliasing the remaining gesture) instead of the grab
being removed. -/
theorem c1_grab_at_removed_index_not_removed :
    (({ state0 with
        pan_grab := [mkPan 5 1, mkPan 6 1]
        mouse_grab := some (mkMouse 0 1 0) }.remove_pan 1).mouse_grab =
      some (mkMouse 0 0 0)) ∧
    (({ state0 with
        pan_grab := [mkPan 5 1, mkPan 6 1]
        mouse_grab := some (mkMouse 0 1 0) }.remove_pan 1).mouse_grab ≠ none) := by
  constructor
  · rfl
  · decide

/-- C1 (amended): `remove_pan i` removes list entry `i`; every press and
touch grab whose stored gesture index is `≥ i` — equality included — and is
not the `u16MAX` sentinel has that index decremented by one (wrapping to
the sentinel when the index is 0); grabs with stored index `< i` or equal
to the sentinel are unchanged; no grab is removed (the mouse grab stays
present and the touch-grab list keeps its length and keys). -/
theorem c1_remove_pan (s : ManagerState) (i : Nat) :
    (s.remove_pan i).pan_grab = s.pan_grab.eraseIdx i ∧
    (s.remove_pan i).mouse_grab.isSome = s.mouse_grab.isSome ∧
    (s.remove_pan i).touch_grab.length = s.touch_grab.length ∧
    (∀ g, s.mouse_grab = some g →
      ((g.pan_grab.1 < i ∨ g.pan_grab.1 = u16MAX) →
        (s.remove_pan i).mouse_grab = some g) ∧
      (i ≤ g.pan_grab.1 → 1 ≤ g.pan_grab.1 → g.pan_grab.1 < u16MAX →
        (s.remove_pan i).mouse_grab =
          some { g with pan_grab := (g.pan_grab.1 - 1, g.pan_grab.2) }) ∧
      (i = 0 → g.pan_grab.1 = 0 →
        (s.remove_pan i).mouse_grab =
          some { g with pan_grab := (u16MAX, g.pan_grab.2) })) ∧
    (∀ j k g, s.touch_grab.get? j = some (k, g) →
      ((g.pan_grab.1 < i ∨ g.pan_grab.1 = u16MAX) →
        (s.remove_pan i).touch_grab.get? j = some (k, g)) ∧
      (i ≤ g.pan_grab.1 → 1 ≤ g.pan_grab.1 → g.pan_grab.1 < u16MAX →
        (s.remove_pan i).touch_grab.get? j =
          some (k, { g with pan_grab := (g.pan_grab.1 - 1, g.pan_grab.2) })) ∧
      (i = 0 → g.pan_grab.1 = 0 →
        (s.remove_pan i).touch_grab.get? j =
          some (k, { g with pan_grab := (u16MAX, g.pan_grab.2) }))) := by
  refine ⟨rfl, ?_, ?_, ?_, ?_⟩
  · cases hm : s.mouse_grab <;> simp [ManagerState.remove_pan, hm]
  · simp [ManagerState.remove_pan]
  · intro g hg
    refine ⟨?_, ?_, ?_⟩
    · intro hc
      have hneg : ¬ (i ≤ g.pan_grab.1 ∧ g.pan_grab.1 ≠ u16MAX) := by
        unfold u16MAX at *
        omega
      simp [ManagerState.remove_pan, hg, hneg]
    · intro h1 h2 h3
      have hcond : i ≤ g.pan_grab.1 ∧ g.pan_grab.1 ≠ u16MAX := by
        unfold u16MAX at *
        omega
      have hd := u16dec_of_pos h2 (show g.pan_grab.1 ≤ 65535 by
        unfold u16MAX at h3
        omega)
      simp [ManagerState.remove_pan, hg, hcond, hd]
    · intro h1 h2
      have hcond : i ≤ g.pan_grab.1 ∧ g.pan_grab.1 ≠ u16MAX := by
        unfold u16MAX
        omega
      have hd : u16dec g.pan_grab.1 = u16MAX := by
        rw [h2]
        exact u16dec_zero
      simp [ManagerState.remove_pan, hg, hcond, hd]
  · intro j k g hg
    simp only [List.get?_eq_getElem?] at hg
    refine ⟨?_, ?_, ?_⟩
    · intro hc
      have hneg : ¬ (i ≤ g.pan_grab.1 ∧ g.pan_grab.1 ≠ u16MAX) := by
        unfold u16MAX at *
        omega
      simp [ManagerState.remove_pan, hg, hneg]
    · intro h1 h2 h3
      have hcond : i ≤ g.pan_grab.1 ∧ g.pan_grab.1 ≠ u16MAX := by
        unfold u16MAX at *
        omega
      have hd := u16dec_of_pos h2 (show g.pan_grab.1 ≤ 65535 by
        unfold u16MAX at h3
        omega)
      simp [ManagerState.remove_pan, hg, hcond, hd]
    · intro h1 h2
      have hcond : i ≤ g.pan_grab.1 ∧ g.pan_grab.1 ≠ u16MAX := by
        unfold u16MAX
        omega
      have hd : u16dec g.pan_grab.1 = u16MAX := by
        rw [h2]
        exact u16dec_zero
      simp [ManagerState.remove_pan, hg, hcond, hd]

/-- C1 amended-claim witness: applying `c1_remove_pan` to a concrete state
with gesture indices below, at and above the removed index. -/
theorem c1_remove_pan_witness :
    (({ state0 with
        pan_grab := [mkPan 5 1, mkPan 6 1, mkPan 7 1]
        mouse_grab := some (mkMouse 0 2 0)
        touch_grab := [(9, mkTouch 0 0), (10, mkTouch 65535 0)] }.remove_pan 1).mouse_grab =
      some { mkMouse 0 2 0 with pan_grab := (1, 0) }) ∧
    (({ state0 with
        pan_grab := [mkPan 5 1, mkPan 6 1, mkPan 7 1]
        mouse_grab := some (mkMouse 0 2 0)
        touch_grab := [(9, mkTouch 0 0), (10, mkTouch 65535 0)] }.remove_pan 1).touch_grab.get? 0 =
      some (9, mkTouch 0 0)) ∧
    (({ state0 with
        pan_grab := [mkPan 5 1, mkPan 6 1, mkPan 7 1]
        mouse_grab := some (mkMouse 0 2 0)
        touch_grab := [(9, mkTouch 0 0), (10, mkTouch 65535 0)] }.remove_pan 1).touch_grab.get? 1 =
      some (10, mkTouch 65535 0)) := by
  have h := c1_remove_pan
    { state0 with
      pan_grab := [mkPan 5 1, mkPan 6 1, mkPan 7 1]
      mouse_grab := some (mkMouse 0 2 0)
      touch_grab := [(9, mkTouch 0 0), (10, mkTouch 65535 0)] } 1
  refine ⟨?_, ?_, ?_⟩
  · exact (h.2.2.2.1 (mkMouse 0 2 0) rfl).2.1 (by decide) (by decide) (by decide)
  · exact (h.2.2.2.2 0 9 (mkTouch 0 0) rfl).1 (by decide)
  · exact (h.2.2.2.2 1 10 (mkTouch 65535 0) rfl).1 (by decide)

/-- C2 counterexample. The claim states that for every element A and every
descendant B, `A.id < B.id`. Configuring the two-widget tree (a root with
one child) from counter 0 assigns the child id 0 and the root id 1: the
root's id is strictly GREATER than its descendant's, refuting the claimed
direction of the ordering. -/
theorem c2_parent_id_greater_than_child :
    (assignTree (WTree.node [WTree.node []]) 0).1 = ITree.node 1 [ITree.node 0 []] ∧
    ITree.node 0 [] ∈ subtreesL (childrenOf (assignTree (WTree.node [WTree.node []]) 0).1) ∧
    ¬ idOf (assignTree (WTree.node [WTree.node []]) 0).1 < idOf (ITree.node 0 []) := by
  refine ⟨rfl, ?_, ?_⟩
  · show ITree.node 0 [] ∈ subtreesL [ITree.node 0 []]
    simp [subtreesL, subtrees]
  · show ¬ (1 < 0)
    decide

/-- C2 (amended): identifiers are assigned by a depth-first walk that
numbers children before their parent, so for every element A and every
descendant B of A, `B.id < A.id` (the parent carries the larger id); the
identifiers of A's subtree are a contiguous range in traversal order that
ends at A's own id; and `find` is correct under this ordering — it resolves
exactly the in-range identifiers, returning the unique subtree carrying the
searched id, and rejects all others. -/
theorem c2_postorder_assignment (t : WTree) (n : Nat) :
    (assignTree t n).2 = n + sizeT t ∧
    postIds (assignTree t n).1 = List.range' n (sizeT t) ∧
    (postIds (assignTree t n).1).Nodup ∧
    idOf (assignTree t n).1 = n + sizeT t - 1 ∧
    (∀ d ∈ subtreesL (childrenOf (assignTree t n).1), idOf d < idOf (assignTree t n).1) ∧
    (∀ id, n ≤ id → id < n + sizeT t →
      ∃ st, findW (assignTree t n).1 id = some st ∧ idOf st = id ∧
        st ∈ subtrees (assignTree t n).1) ∧
    (∀ id, id < n ∨ n + sizeT t ≤ id → findW (assignTree t n).1 id = none) := by
  have hsnd := assignTree_snd t n
  have hsp := assignTree_spans t n
  rw [hsnd] at hsp
  have hio := spans_idOf hsp
  refine ⟨hsnd, ?_, ?_, ?_, ?_, ?_, ?_⟩
  · rw [spans_postIds _ n (n + sizeT t) hsp]
    congr 1
    omega
  · rw [spans_postIds _ n (n + sizeT t) hsp]
    exact List.nodup_range' _ _
  · omega
  · intro d hd
    rcases htop : (assignTree t n).1 with ⟨i, cs⟩
    rw [htop] at hsp hd
    unfold Spans at hsp
    obtain ⟨h1, h2, h3⟩ := hsp
    have hb := spansL_subtree_bounds cs n i h3 d (by
      simpa [childrenOf] using hd)
    have hroot : idOf (ITree.node i cs) = i := rfl
    omega
  · intro id hle hlt
    exact (spans_find _ n (n + sizeT t) hsp id).2 hle hlt
  · intro id hc
    exact (spans_find _ n (n + sizeT t) hsp id).1 hc

/-- C2 amended-claim witness: applying `c2_postorder_assignment` to the
three-widget tree configured from counter 0 — id 1 is resolved by `find`
and id 7 is rejected. -/
theorem c2_postorder_assignment_witness :
    (assignTree (WTree.node [WTree.node [], WTree.node []]) 0).2 =
      0 + sizeT (WTree.node [WTree.node [], WTree.node []]) ∧
    (∃ st, findW (assignTree (WTree.node [WTree.node [], WTree.node []]) 0).1 1 = some st ∧
      idOf st = 1 ∧ st ∈ subtrees (assignTree (WTree.node [WTree.node [], WTree.node []]) 0).1) ∧
    findW (assignTree (WTree.node [WTree.node [], WTree.node []]) 0).1 7 = none := by
  have h := c2_postorder_assignment (WTree.node [WTree.node [], WTree.node []]) 0
  exact ⟨h.1, h.2.2.2.2.2.1 1 (by decide) (by decide),
    h.2.2.2.2.2.2 7 (Or.inr (by decide))⟩


/-- `remove_pan` does not touch the focus fields. -/
theorem remove_pan_focus (s : ManagerState) (i : Nat) :
    (s.remove_pan i).char_focus = s.char_focus ∧
    (s.remove_pan i).sel_focus = s.sel_focus :=
  ⟨rfl, rfl⟩

/-- `set_pan_on` does not touch the focus fields. -/
theorem set_pan_on_focus (s : ManagerState) (id : Nat) (mode : GrabMode)
    (st : Bool) (c : Coord) :
    (s.set_pan_on id mode st c).1.char_focus = s.char_focus ∧
    (s.set_pan_on id mode st c).1.sel_focus = s.sel_focus := by
  cases hfind : ManagerState.findPanIdx s.pan_grab id with
  | none => simp [ManagerState.set_pan_on, hfind]
  | some gi =>
    by_cases hsrc : (s.pan_grab[gi]?.getD default).source_is_touch = st
    · simp [ManagerState.set_pan_on, hfind, hsrc]
    · simp [ManagerState.set_pan_on, hfind, hsrc, ManagerState.remove_pan]

/-- `remove_pan_grab` does not touch the focus fields on any normally
completing path. -/
theorem remove_pan_grab_focus (s : ManagerState) (g : Nat × Nat) :
    ∀ s2, s.remove_pan_grab g = some s2 →
      s2.char_focus = s.char_focus ∧ s2.sel_focus = s.sel_focus := by
  intro s2 h
  cases hget : s.pan_grab[g.1]? with
  | none =>
    simp only [ManagerState.remove_pan_grab, List.get?_eq_getElem?, hget,
      Option.some_inj] at h
    subst h
    exact ⟨rfl, rfl⟩
  | some pg =>
    simp only [ManagerState.remove_pan_grab, List.get?_eq_getElem?, hget] at h
    by_cases hz : u16dec pg.n = 0
    · simp only [hz, if_pos, if_true, Option.some_inj] at h
      subst h
      exact ⟨rfl, rfl⟩
    · simp only [hz, if_false, ite_false] at h
      by_cases hsrc : pg.source_is_touch = false
      · simp [hsrc] at h
      · cases hc2 : ManagerState.shiftCoords pg.coords g.2 (u16dec pg.n - 1) with
        | none => simp [hsrc, hc2] at h
        | some c2 =>
          simp [hsrc, hc2] at h
          subst h
          exact ⟨rfl, rfl⟩

/-- `end_mouse_grab` does not touch the focus fields on any normally
completing path. -/
theorem end_mouse_grab_focus (s : ManagerState) (b : Nat) :
    ∀ r, Manager.end_mouse_grab s b = some r →
      r.1.char_focus = s.char_focus ∧ r.1.sel_focus = s.sel_focus := by
  intro r h
  cases hm : s.mouse_grab with
  | none =>
    simp only [Manager.end_mouse_grab, hm, Option.some_inj] at h
    subst h
    exact ⟨rfl, rfl⟩
  | some g =>
    simp only [Manager.end_mouse_grab, hm] at h
    by_cases hb : g.button ≠ b
    · rw [if_pos hb] at h
      injection h with h
      subst h
      exact ⟨rfl, rfl⟩
    · rw [if_neg hb, Option.map_eq_some'] at h
      obtain ⟨s2, hs2, hr⟩ := h
      have hf := remove_pan_grab_focus { s with mouse_grab := none } g.pan_grab s2 hs2
      subst hr
      exact ⟨hf.1, hf.2⟩

/-- `close_window` does not touch the focus fields. -/
theorem close_window_focus (s : ManagerState) (wid : Nat) :
    (Manager.close_window s wid).1.char_focus = s.char_focus ∧
    (Manager.close_window s wid).1.sel_focus = s.sel_focus := by
  cases hf : s.popups.find? (fun p => p.1 == wid) with
  | none => simp [Manager.close_window, hf]
  | some p => simp [Manager.close_window, hf]

/-- The popup-closing loop of the accelerator stage does not touch the
focus fields. -/
theorem accel_fold_focus (last : Nat) :
    ∀ (l : List Nat) (p : ManagerState × List Effect),
      ((l.foldl (Manager.accel_close_step last) p).1.char_focus = p.1.char_focus ∧
       (l.foldl (Manager.accel_close_step last) p).1.sel_focus = p.1.sel_focus)
  | [], _ => ⟨rfl, rfl⟩
  | i :: l, p => by
    rw [List.foldl_cons]
    have h1 := accel_fold_focus last l (Manager.accel_close_step last p i)
    have h2 := close_window_focus p.1 ((p.1.popups.getD (last - i) default).1)
    unfold Manager.accel_close_step
    exact ⟨h1.1.trans h2.1, h1.2.trans h2.2⟩

/-- After `set_char_focus (some y)` the selection-focus field reads `y` and
the character-focus flag is set, on every code path. -/
theorem set_char_focus_some_fields (s : ManagerState) (y : Nat) :
    (Manager.set_char_focus s (some y)).sel_focus = some y ∧
    (Manager.set_char_focus s (some y)).char_focus = true := by
  by_cases h : s.sel_focus = some y
  · simp [Manager.set_char_focus, Manager.set_nav_focus, h]
  · cases hsel : s.sel_focus with
    | some id =>
      have hiy : ¬ (id = y) := by
        rw [hsel] at h
        simpa using h
      by_cases hcf : s.char_focus <;>
        simp [Manager.set_char_focus, Manager.set_nav_focus, h, hsel, hcf, hiy]
    | none => simp [Manager.set_char_focus, Manager.set_nav_focus, h, hsel]

/-- After `set_char_focus none` the character-focus flag is clear, on every
code path. -/
theorem set_char_focus_none_char (s : ManagerState) :
    (Manager.set_char_focus s none).char_focus = false := by
  by_cases h : s.sel_focus = none
  · simp [Manager.set_char_focus, h]
  · cases hsel : s.sel_focus with
    | none => exact absurd hsel h
    | some id =>
      by_cases hcf : s.char_focus <;>
        simp [Manager.set_char_focus, h, hsel, hcf]

/-- C3: requesting character focus for a new element `y` while selection
focus is on a different element `x`: the pending queue gains a deferred
lost-character-focus notification for `x` exactly when the old element had
character focus, followed in either case by a lost-selection-focus
notification for `x`; the selection-focus field then reads `y` and the
character-focus flag is set. Nothing is delivered synchronously: the
source function performs no widget `send`, which the embedding reflects by
its state-only result — the notifications are only appended to `pending`
(they are drained after the call returns). -/
theorem c3_char_focus_change (s : ManagerState) (x y : Nat)
    (hsel : s.sel_focus = some x) (hne : x ≠ y) :
    (Manager.set_char_focus s (some y)).sel_focus = some y ∧
    (Manager.set_char_focus s (some y)).char_focus = true ∧
    (Manager.set_char_focus s (some y)).pending =
      s.pending ++ (if s.char_focus then [Pending.lostCharFocus x] else []) ++
        [Pending.lostSelFocus x] := by
  have hne2 : ¬ (s.sel_focus = some y) := by
    rw [hsel]
    simp [hne]
  refine ⟨(set_char_focus_some_fields s y).1, (set_char_focus_some_fields s y).2, ?_⟩
  by_cases hcf : s.char_focus <;>
    simp [Manager.set_char_focus, Manager.set_nav_focus, hne2, hsel, hcf, hne]

/-- C3 witness: element 1 holds selection and character focus; requesting
character focus for element 2 queues lost-character-focus and
lost-selection-focus notifications for element 1 and moves selection focus
to 2. -/
theorem c3_char_focus_change_witness :
    (Manager.set_char_focus
      { state0 with sel_focus := some 1, char_focus := true } (some 2)).sel_focus = some 2 ∧
    (Manager.set_char_focus
      { state0 with sel_focus := some 1, char_focus := true } (some 2)).pending =
      [Pending.lostCharFocus 1, Pending.lostSelFocus 1] := by
  have h := c3_char_focus_change
    { state0 with sel_focus := some 1, char_focus := true } 1 2 rfl (by decide)
  exact ⟨h.1, by rw [h.2.2]; rfl⟩

/-- C10: clearing character focus (requesting character focus for no
element) while selection focus is on `x`: selection focus is unchanged, a
lost-character-focus notification for `x` is queued exactly when the
character-focus flag was set, and no lost-selection-focus notification is
queued. -/
theorem c10_clear_char_focus (s : ManagerState) (x : Nat)
    (hsel : s.sel_focus = some x) :
    (Manager.set_char_focus s none).sel_focus = some x ∧
    (Manager.set_char_focus s none).char_focus = false ∧
    (Manager.set_char_focus s none).pending =
      s.pending ++ (if s.char_focus then [Pending.lostCharFocus x] else []) ∧
    (∀ i, Pending.lostSelFocus i ∈ (Manager.set_char_focus s none).pending →
      Pending.lostSelFocus i ∈ s.pending) := by
  have hne2 : ¬ (s.sel_focus = (none : Option Nat)) := by
    rw [hsel]
    simp
  refine ⟨?_, set_char_focus_none_char s, ?_, ?_⟩
  · by_cases hcf : s.char_focus <;> simp [Manager.set_char_focus, hne2, hsel, hcf]
  · by_cases hcf : s.char_focus <;> simp [Manager.set_char_focus, hne2, hsel, hcf]
  · intro i hi
    by_cases hcf : s.char_focus <;>
      simp [Manager.set_char_focus, hne2, hsel, hcf] at hi <;> exact hi

/-- C10 witness: with selection and character focus on element 1, clearing
character focus leaves selection focus on 1 and queues exactly the
lost-character-focus notification. -/
theorem c10_clear_char_focus_witness :
    (Manager.set_char_focus
      { state0 with sel_focus := some 1, char_focus := true } none).sel_focus = some 1 ∧
    (Manager.set_char_focus
      { state0 with sel_focus := some 1, char_focus := true } none).pending =
      [Pending.lostCharFocus 1] := by
  have h := c10_clear_char_focus
    { state0 with sel_focus := some 1, char_focus := true } 1 rfl
  exact ⟨h.1, by rw [h.2.2.1]; rfl⟩

/-- C4: the character-focus invariant — the flag may only be set while
selection focus holds the element that last received character focus — is
established by every `set_char_focus` call (with that call's target as the
last recipient) and preserved by every other modelled operation on the
interaction state, none of which touches the focus fields. -/
theorem c4_char_focus_invariant :
    (∀ s wid, CharFocusInv (Manager.set_char_focus s wid) wid) ∧
    (∀ s t i, CharFocusInv s t → CharFocusInv (s.remove_pan i) t) ∧
    (∀ s t id mode st c, CharFocusInv s t →
      CharFocusInv (s.set_pan_on id mode st c).1 t) ∧
    (∀ s t g s2, s.remove_pan_grab g = some s2 →
      CharFocusInv s t → CharFocusInv s2 t) ∧
    (∀ s t b r, Manager.end_mouse_grab s b = some r →
      CharFocusInv s t → CharFocusInv r.1 t) ∧
    (∀ s t g, CharFocusInv s t → CharFocusInv (Manager.request_mouse_grab s g) t) ∧
    (∀ s t root vkey, CharFocusInv s t →
      CharFocusInv (Manager.accel_stage s root vkey).1 t) := by
  refine ⟨?_, ?_, ?_, ?_, ?_, ?_, ?_⟩
  · intro s wid
    cases wid with
    | none =>
      intro hcf
      rw [set_char_focus_none_char s] at hcf
      cases hcf
    | some y =>
      intro _
      exact ⟨(set_char_focus_some_fields s y).1, rfl⟩
  · intro s t i h hcf
    rw [(remove_pan_focus s i).1] at hcf
    rw [(remove_pan_focus s i).2]
    exact h hcf
  · intro s t id mode st c h hcf
    rw [(set_pan_on_focus s id mode st c).1] at hcf
    rw [(set_pan_on_focus s id mode st c).2]
    exact h hcf
  · intro s t g s2 hs2 h hcf
    have hf := remove_pan_grab_focus s g s2 hs2
    rw [hf.1] at hcf
    rw [hf.2]
    exact h hcf
  · intro s t b r hr h hcf
    have hf := end_mouse_grab_focus s b r hr
    rw [hf.1] at hcf
    rw [hf.2]
    exact h hcf
  · intro s t g h hcf
    unfold Manager.request_mouse_grab at *
    by_cases hm : s.mouse_grab.isSome <;> simp [hm] at hcf ⊢ <;> exact h hcf
  · intro s t root vkey h hcf
    unfold Manager.accel_stage at *
    cases hfind : Manager.accelFind s root vkey with
    | none =>
      simp only [hfind] at hcf ⊢
      exact h hcf
    | some tn =>
      rcases tn with ⟨target, n⟩
      simp only [hfind] at hcf ⊢
      have hf := accel_fold_focus (s.popups.length - 1) (List.range n) (s, [])
      rw [hf.1] at hcf
      rw [hf.2]
      exact h hcf

/-- C4 witness: the invariant holds with character focus on element 1 and
is preserved across a gesture removal. -/
theorem c4_char_focus_invariant_witness :
    CharFocusInv { state0 with sel_focus := some 1, char_focus := true } (some 1) ∧
    CharFocusInv
      ({ state0 with sel_focus := some 1, char_focus := true }.remove_pan 0) (some 1) := by
  refine ⟨by decide, ?_⟩
  exact c4_char_focus_invariant.2.1
    { state0 with sel_focus := some 1, char_focus := true } (some 1) 0 (by decide)


/-- `remove_pan_grab` keeps an absent mouse grab absent on any normally
completing path. -/
theorem remove_pan_grab_mouse_none (s : ManagerState) (g : Nat × Nat)
    (h : s.mouse_grab = none) :
    ∀ s2, s.remove_pan_grab g = some s2 → s2.mouse_grab = none := by
  intro s2 h2
  cases hget : s.pan_grab[g.1]? with
  | none =>
    simp only [ManagerState.remove_pan_grab, List.get?_eq_getElem?, hget,
      Option.some_inj] at h2
    subst h2
    exact h
  | some pg =>
    simp only [ManagerState.remove_pan_grab, List.get?_eq_getElem?, hget] at h2
    by_cases hz : u16dec pg.n = 0
    · simp only [hz, if_pos, if_true, Option.some_inj] at h2
      subst h2
      simp [ManagerState.remove_pan, h]
    · simp only [hz, if_false, ite_false] at h2
      by_cases hsrc : pg.source_is_touch = false
      · simp [hsrc] at h2
      · cases hc2 : ManagerState.shiftCoords pg.coords g.2 (u16dec pg.n - 1) with
        | none => simp [hsrc, hc2] at h2
        | some c2 =>
          simp [hsrc, hc2] at h2
          subst h2
          exact h

/-- C8 counterexample. The claim states that exactly one press grab exists
at every observation point. A state with one active mouse grab is
observable; ending that grab with its own button yields the next
observable state, which holds zero press grabs. -/
theorem c8_zero_grabs_observable :
    ({ state0 with mouse_grab := some (mkMouse 0 65535 0) } :
      ManagerState).mouse_grab.isSome = true ∧
    ((Manager.end_mouse_grab { state0 with mouse_grab := some (mkMouse 0 65535 0) }
      0).map fun r => r.1.mouse_grab.isSome) = some false := by
  constructor
  · rfl
  · rfl

/-- C8 (amended): at most one press grab exists at any observation point —
the interaction state stores a single optional mouse grab, so two
concurrent button grabs cannot be represented; a grab request while one is
active is ignored (the state is returned unchanged), and a request on a
grab-free state installs exactly the requested grab. -/
theorem c8_single_press_grab (s : ManagerState) (g : MouseGrab) :
    (s.mouse_grab.isSome = true → Manager.request_mouse_grab s g = s) ∧
    (s.mouse_grab = none → (Manager.request_mouse_grab s g).mouse_grab = some g) := by
  constructor
  · intro h
    simp [Manager.request_mouse_grab, h]
  · intro h
    simp [Manager.request_mouse_grab, h]

/-- C8 amended-claim witness: a second grab request while a grab is active
leaves the state unchanged; a request on the free state installs the
grab. -/
theorem c8_single_press_grab_witness :
    Manager.request_mouse_grab { state0 with mouse_grab := some (mkMouse 0 65535 0) }
      (mkMouse 1 65535 0) = { state0 with mouse_grab := some (mkMouse 0 65535 0) } ∧
    (Manager.request_mouse_grab state0 (mkMouse 1 65535 0)).mouse_grab =
      some (mkMouse 1 65535 0) := by
  constructor
  · exact (c8_single_press_grab
      { state0 with mouse_grab := some (mkMouse 0 65535 0) } (mkMouse 1 65535 0)).1 (by decide)
  · exact (c8_single_press_grab state0 (mkMouse 1 65535 0)).2 (by decide)

/-- C9: ending a mouse grab with button `b` — with no active grab, or an
active grab with a different button, the call is a no-op returning the
state unchanged with no shell effect; with the active grab's button equal
to `b`, the grab's pan-gesture slot is released via `remove_pan_grab`
exactly as the source does (a panic there propagates), and on normal
completion the grab is cleared, the shell cursor icon is restored to the
hover icon and the grab's start widget is marked for redraw. -/
theorem c9_end_mouse_grab (s : ManagerState) (b : Nat) :
    (s.mouse_grab = none → Manager.end_mouse_grab s b = some (s, [])) ∧
    (∀ g, s.mouse_grab = some g → g.button ≠ b →
      Manager.end_mouse_grab s b = some (s, [])) ∧
    (∀ g, s.mouse_grab = some g → g.button = b →
      Manager.end_mouse_grab s b =
        (ManagerState.remove_pan_grab { s with mouse_grab := none } g.pan_grab).map
          (fun s2 => (s2, [Effect.setCursorIcon s.hover_icon, Effect.redraw g.start_id])) ∧
      (∀ r, Manager.end_mouse_grab s b = some r →
        r.1.mouse_grab = none ∧
        r.2 = [Effect.setCursorIcon s.hover_icon, Effect.redraw g.start_id])) := by
  refine ⟨?_, ?_, ?_⟩
  · intro h
    simp [Manager.end_mouse_grab, h]
  · intro g hg hb
    simp [Manager.end_mouse_grab, hg, hb]
  · intro g hg hb
    have heq : Manager.end_mouse_grab s b =
        (ManagerState.remove_pan_grab { s with mouse_grab := none } g.pan_grab).map
          (fun s2 =>
            (s2, [Effect.setCursorIcon s.hover_icon, Effect.redraw g.start_id])) := by
      simp [Manager.end_mouse_grab, hg, hb]
    refine ⟨heq, ?_⟩
    intro r hr
    rw [heq, Option.map_eq_some'] at hr
    obtain ⟨s2, hs2, hr2⟩ := hr
    subst hr2
    exact ⟨remove_pan_grab_mouse_none _ _ rfl s2 hs2, rfl⟩

/-- C9 witness: ending with a non-matching button is a no-op; ending with
the matching button completes normally (the grab's pan slot is the
sentinel), clears the grab, restores the hover icon and redraws the start
widget. -/
theorem c9_end_mouse_grab_witness :
    Manager.end_mouse_grab { state0 with mouse_grab := some (mkMouse 2 65535 0) } 3 =
      some ({ state0 with mouse_grab := some (mkMouse 2 65535 0) }, []) ∧
    ((Manager.end_mouse_grab { state0 with mouse_grab := some (mkMouse 2 65535 0) }
      2).map fun r => (r.1.mouse_grab, r.2)) =
      some (none, [Effect.setCursorIcon 0, Effect.redraw 3]) := by
  refine ⟨?_, ?_⟩
  · exact (c9_end_mouse_grab _ 3).2.1 (mkMouse 2 65535 0) rfl (by decide)
  · have h := ((c9_end_mouse_grab
      { state0 with mouse_grab := some (mkMouse 2 65535 0) } 2).2.2
      (mkMouse 2 65535 0) rfl rfl).1
    rw [h]
    rfl

/-- `find?` on a list ending in `a`, whose prefix holds no entry keyed like
`a`, returns `a`. -/
theorem find?_key_append_last {α : Type} (l : List (Nat × α)) (a : Nat × α)
    (h : ∀ x ∈ l, x.1 ≠ a.1) :
    (l ++ [a]).find? (fun p => p.1 == a.1) = some a := by
  induction l with
  | nil => simp
  | cons x l ih =>
    have hx : (x.1 == a.1) = false := by
      simpa using h x (by simp)
    simp only [List.cons_append, List.find?_cons, hx]
    exact ih fun y hy => h y (by simp [hy])

/-- Filtering out the key of `a` from a list ending in `a`, whose prefix
holds no entry keyed like `a`, drops exactly `a`. -/
theorem filter_key_append_last {α : Type} (l : List (Nat × α)) (a : Nat × α)
    (h : ∀ x ∈ l, x.1 ≠ a.1) :
    (l ++ [a]).filter (fun q => q.1 ≠ a.1) = l := by
  induction l with
  | nil => simp
  | cons x l ih =>
    have hx : x.1 ≠ a.1 := h x (by simp)
    simp only [List.cons_append, List.filter_cons]
    rw [if_pos (by simpa using hx)]
    rw [ih fun y hy => h y (by simp [hy])]

/-- Soundness of the accelerator first-match scan: a result `(target, n)`
means position `n - i0` of the chain owns an eligible layer mapping `vkey`
to `target`, and no earlier chain position owns an eligible layer
containing `vkey`. -/
theorem accelFindAux_spec (alt : Bool) (layers : List (Nat × AccelLayer)) (vkey : Nat) :
    ∀ (chain : List Nat) (i0 target n : Nat),
      Manager.accelFindAux alt layers vkey chain i0 = some (target, n) →
      i0 ≤ n ∧ n - i0 < chain.length ∧
      (∃ ownerId layer, chain.get? (n - i0) = some ownerId ∧
        layers.lookup ownerId = some layer ∧
        (alt = true ∨ layer.alt_bypass = true) ∧
        layer.keys.lookup vkey = some target) ∧
      (∀ j, j < n - i0 → ∀ ownerId layer, chain.get? j = some ownerId →
        layers.lookup ownerId = some layer →
        (alt = true ∨ layer.alt_bypass = true) →
        layer.keys.lookup vkey = none)
  | [], i0, target, n, h => by simp [Manager.accelFindAux] at h
  | id :: rest, i0, target, n, h => by
    simp only [Manager.accelFindAux] at h
    cases hlk : layers.lookup id with
    | none =>
      simp only [hlk] at h
      obtain ⟨h1, h2, h3, h4⟩ := accelFindAux_spec alt layers vkey rest (i0 + 1) target n h
      refine ⟨by omega, by simp only [List.length_cons]; omega, ?_, ?_⟩
      · obtain ⟨oid, layer, hget, hl, he, hk⟩ := h3
        refine ⟨oid, layer, ?_, hl, he, hk⟩
        rw [show n - i0 = (n - (i0 + 1)) + 1 by omega]
        simpa using hget
      · intro j hj oid layer hget hl he
        cases j with
        | zero =>
          simp only [List.get?_eq_getElem?, List.getElem?_cons_zero, Option.some_inj] at hget
          rw [← hget] at hl
          rw [hlk] at hl
          cases hl
        | succ j' =>
          refine h4 j' (by omega) oid layer ?_ hl he
          simpa using hget
    | some layer =>
      simp only [hlk] at h
      by_cases he : (alt = true ∨ layer.alt_bypass = true)
      · rw [if_pos he] at h
        cases hkk : layer.keys.lookup vkey with
        | some target2 =>
          simp only [hkk] at h
          have hti : target2 = target ∧ i0 = n := by
            have := h
            simp only [Option.some_inj, Prod.mk.injEq] at this
            exact this
          obtain ⟨ht, hn⟩ := hti
          subst ht
          subst hn
          refine ⟨Nat.le_refl _, by simp, ?_, ?_⟩
          · refine ⟨id, layer, by simp, hlk, he, hkk⟩
          · intro j hj
            omega
        | none =>
          simp only [hkk] at h
          obtain ⟨h1, h2, h3, h4⟩ := accelFindAux_spec alt layers vkey rest (i0 + 1) target n h
          refine ⟨by omega, by simp only [List.length_cons]; omega, ?_, ?_⟩
          · obtain ⟨oid, layer2, hget, hl, he2, hk⟩ := h3
            refine ⟨oid, layer2, ?_, hl, he2, hk⟩
            rw [show n - i0 = (n - (i0 + 1)) + 1 by omega]
            simpa using hget
          · intro j hj oid layer2 hget hl he2
            cases j with
            | zero =>
              simp only [List.get?_eq_getElem?, List.getElem?_cons_zero,
                Option.some_inj] at hget
              rw [← hget] at hl
              rw [hlk] at hl
              have : layer2 = layer := by
                injection hl with h'
                exact h'.symm
              rw [this]
              exact hkk
            | succ j' =>
              refine h4 j' (by omega) oid layer2 ?_ hl he2
              simpa using hget
      · rw [if_neg he] at h
        obtain ⟨h1, h2, h3, h4⟩ := accelFindAux_spec alt layers vkey rest (i0 + 1) target n h
        refine ⟨by omega, by simp only [List.length_cons]; omega, ?_, ?_⟩
        · obtain ⟨oid, layer2, hget, hl, he2, hk⟩ := h3
          refine ⟨oid, layer2, ?_, hl, he2, hk⟩
          rw [show n - i0 = (n - (i0 + 1)) + 1 by omega]
          simpa using hget
        · intro j hj oid layer2 hget hl he2
          cases j with
          | zero =>
            simp only [List.get?_eq_getElem?, List.getElem?_cons_zero,
              Option.some_inj] at hget
            rw [← hget] at hl
            rw [hlk] at hl
            have : layer2 = layer := by
              injection hl with h'
              exact h'.symm
            rw [this] at he2
            exact absurd he2 he
          | succ j' =>
            refine h4 j' (by omega) oid layer2 ?_ hl he2
            simpa using hget


/-- The popup-closing loop of the accelerator stage, run `n` steps on a
stack with pairwise-distinct window handles, closes exactly the top `n`
popups, top-down: the stack shrinks to its first `length - n` entries, the
closed popups' parents are recorded in `popup_removed` in closing order,
and one `closeWindow` effect is emitted per popup in closing order. -/
theorem accel_close_loop (s : ManagerState)
    (hpw : s.popups.Pairwise (fun a b => a.1 ≠ b.1)) :
    ∀ n : Nat, n ≤ s.popups.length →
      (List.range n).foldl (Manager.accel_close_step (s.popups.length - 1)) (s, []) =
        ({ s with
            popups := s.popups.take (s.popups.length - n)
            popup_removed := s.popup_removed ++
              ((s.popups.reverse.take n).map fun p => (p.2.parent, p.1)) },
         (s.popups.reverse.take n).map fun p => Effect.closeWindow p.1)
  | 0, _ => by simp
  | n + 1, hn => by
    have hstep := accel_close_loop s hpw n (by omega)
    rw [List.range_succ, List.foldl_append, hstep]
    simp only [List.foldl_cons, List.foldl_nil]
    have hk : s.popups.length - 1 - n < s.popups.length := by omega
    have ha : s.popups[s.popups.length - 1 - n]? = some s.popups[s.popups.length - 1 - n] :=
      List.getElem?_eq_getElem hk
    have hgetd : (s.popups.take (s.popups.length - n)).getD (s.popups.length - 1 - n) default =
        s.popups[s.popups.length - 1 - n] := by
      rw [List.getD_eq_getElem?_getD, List.getElem?_take_of_lt (by omega), ha]
      rfl
    have hpre : ∀ x ∈ s.popups.take (s.popups.length - 1 - n),
        x.1 ≠ (s.popups[s.popups.length - 1 - n]).1 := by
      intro x hx
      have hpw2 : (s.popups.take (s.popups.length - 1 - n) ++
          s.popups.drop (s.popups.length - 1 - n)).Pairwise
            (fun a b => a.1 ≠ b.1) := by
        rw [List.take_append_drop]
        exact hpw
      rw [List.pairwise_append] at hpw2
      have hmem : s.popups[s.popups.length - 1 - n] ∈
          s.popups.drop (s.popups.length - 1 - n) := by
        rw [List.drop_eq_getElem_cons hk]
        exact List.mem_cons_self _ _
      exact hpw2.2.2 x hx _ hmem
    have htake : s.popups.take (s.popups.length - n) =
        s.popups.take (s.popups.length - 1 - n) ++ [s.popups[s.popups.length - 1 - n]] := by
      rw [show s.popups.length - n = (s.popups.length - 1 - n) + 1 by omega, List.take_succ, ha]
      rfl
    have hrev : s.popups.reverse.take (n + 1) =
        s.popups.reverse.take n ++ [s.popups[s.popups.length - 1 - n]] := by
      rw [List.take_succ, List.getElem?_reverse (by omega : n < s.popups.length), ha]
      rfl
    unfold Manager.accel_close_step
    simp only [hgetd]
    unfold Manager.close_window
    simp only [htake, find?_key_append_last _ _ hpre, filter_key_append_last _ _ hpre]
    rw [hrev]
    simp only [List.map_append, List.map_cons, List.map_nil, List.append_assoc]
    rw [show s.popups.length - (n + 1) = s.popups.length - 1 - n by omega]


/-- C6: for a key-down resolved by the accelerator stage with result
`(target, n)`: the chain searched runs from the topmost popup's parent down
to the root; position `n` of that chain owns a layer that is eligible
(Alt held or alt-bypass set) and maps the key to `target`, and no earlier
chain position owns an eligible layer containing the key (first match
wins); the `n` popups above the matching layer's owner are closed (removed
from the stack, their parents recorded for notification) and all
`closeWindow` effects precede the single activation send to the matched
element. -/
theorem c6_accelerator_stage (s : ManagerState) (root vkey target n : Nat)
    (hpw : s.popups.Pairwise (fun a b => a.1 ≠ b.1))
    (hfind : Manager.accelFind s root vkey = some (target, n)) :
    n ≤ s.popups.length ∧
    (∃ ownerId layer, (Manager.accelChain s root).get? n = some ownerId ∧
      s.accel_layers.lookup ownerId = some layer ∧
      (s.modifiers_alt = true ∨ layer.alt_bypass = true) ∧
      layer.keys.lookup vkey = some target) ∧
    (∀ j, j < n → ∀ ownerId layer, (Manager.accelChain s root).get? j = some ownerId →
      s.accel_layers.lookup ownerId = some layer →
      (s.modifiers_alt = true ∨ layer.alt_bypass = true) →
      layer.keys.lookup vkey = none) ∧
    (Manager.accel_stage s root vkey).2 =
      ((s.popups.reverse.take n).map fun p => Effect.closeWindow p.1) ++
        [Effect.sendEvent target Event.activate] ∧
    (Manager.accel_stage s root vkey).1.popups =
      s.popups.take (s.popups.length - n) ∧
    (Manager.accel_stage s root vkey).1.popup_removed = s.popup_removed ++
      ((s.popups.reverse.take n).map fun p => (p.2.parent, p.1)) := by
  have hspec := accelFindAux_spec s.modifiers_alt s.accel_layers vkey
    (Manager.accelChain s root) 0 target n (by simpa [Manager.accelFind] using hfind)
  obtain ⟨h0, hlen, hmatch, hmin⟩ := hspec
  simp only [Nat.sub_zero] at hlen hmatch hmin
  have hchainlen : (Manager.accelChain s root).length = s.popups.length + 1 := by
    simp [Manager.accelChain]
  have hn : n ≤ s.popups.length := by omega
  have hloop := accel_close_loop s hpw n hn
  refine ⟨hn, hmatch, ?_, ?_, ?_, ?_⟩
  · intro j hj
    exact hmin j hj
  · simp only [Manager.accel_stage, hfind]
    rw [hloop]
  · simp only [Manager.accel_stage, hfind]
    rw [hloop]
  · simp only [Manager.accel_stage, hfind]
    rw [hloop]

/-- C6 witness: a popup (window 100, parent 10) is open and its layer lacks
the key; the root layer (owner 1) maps key 83 to element 7 with Alt held —
the popup is closed and then the activation is delivered to element 7. -/
theorem c6_accelerator_stage_witness :
    (Manager.accel_stage
      { state0 with
        modifiers_alt := true
        popups := [(100, ⟨50, 10, 0⟩)]
        accel_layers := [(10, ⟨false, []⟩), (1, ⟨false, [(83, 7)]⟩)] } 1 83).2 =
      [Effect.closeWindow 100, Effect.sendEvent 7 Event.activate] ∧
    (Manager.accel_stage
      { state0 with
        modifiers_alt := true
        popups := [(100, ⟨50, 10, 0⟩)]
        accel_layers := [(10, ⟨false, []⟩), (1, ⟨false, [(83, 7)]⟩)] } 1 83).1.popups =
      [] := by
  have h := c6_accelerator_stage
    { state0 with
      modifiers_alt := true
      popups := [(100, ⟨50, 10, 0⟩)]
      accel_layers := [(10, ⟨false, []⟩), (1, ⟨false, [(83, 7)]⟩)] } 1 83 7 1
    (by decide) rfl
  constructor
  · rw [h.2.2.2.1]
    rfl
  · rw [h.2.2.2.2.1]
    rfl


/-- The rescheduling loop leaves a fire instant strictly in the future. -/
theorem advance_gt (d now : Nat) (hd : 0 < d) : ∀ fire : Nat, now < advance fire d now
  | fire => by
    rw [advance]
    split
    · exact advance_gt d now hd (fire + d)
    · rename_i h
      omega
termination_by fire => now + 1 - fire
decreasing_by
  rename_i h
  omega

/-- The rescheduling loop advances the fire instant by whole periods. -/
theorem advance_add_multiple (d now : Nat) :
    ∀ fire : Nat, ∃ k, advance fire d now = fire + d * k
  | fire => by
    rw [advance]
    split
    · obtain ⟨k, hk⟩ := advance_add_multiple d now (fire + d)
      exact ⟨k + 1, by rw [hk]; ring⟩
    · exact ⟨0, by simp⟩
termination_by fire => now + 1 - fire
decreasing_by
  rename_i h
  omega

/-- The rescheduling loop overshoots `now` by at most one period. -/
theorem advance_le (d now : Nat) : ∀ fire : Nat, fire ≤ now + d → advance fire d now ≤ now + d
  | fire, hle => by
    rw [advance]
    split
    · rename_i h
      exact advance_le d now (fire + d) (by omega)
    · exact hle
termination_by fire => now + 1 - fire
decreasing_by
  rename_i h _
  omega

/-- A fire instant already in the future is not advanced. -/
theorem advance_of_gt (fire d now : Nat) (h : now < fire) : advance fire d now = fire := by
  rw [advance]
  rw [if_neg (by omega)]

/-- The fired-callback list of `timer_resume` is exactly the callbacks of
the entries whose fire instant equals the wake instant, in scan order. -/
theorem timer_resume_fired (instant now : Nat) : ∀ ts : List Timeout,
    (timer_resume instant now ts).2 =
      (ts.filter (fun t => t.fire == instant)).map (fun t => t.cb)
  | [] => rfl
  | t :: ts => by
    by_cases hf : t.fire = instant
    · cases hp : t.period with
      | some d =>
        simp [timer_resume, hf, hp, List.filter_cons, timer_resume_fired instant now ts]
      | none =>
        simp [timer_resume, hf, hp, List.filter_cons, timer_resume_fired instant now ts]
    · simp [timer_resume, hf, List.filter_cons, timer_resume_fired instant now ts]

/-- The surviving-entry list of `timer_resume`: entries not due at the wake
instant survive unchanged, due periodic entries survive with the advanced
fire instant, due one-shot entries are removed. -/
theorem timer_resume_remaining (instant now : Nat) : ∀ ts : List Timeout,
    (timer_resume instant now ts).1 = ts.filterMap (fun t =>
      if t.fire = instant then
        match t.period with
        | some d => some { t with fire := advance t.fire d now }
        | none => none
      else some t)
  | [] => rfl
  | t :: ts => by
    by_cases hf : t.fire = instant
    · cases hp : t.period with
      | some d =>
        simp [timer_resume, hf, hp, List.filterMap_cons, timer_resume_remaining instant now ts]
      | none =>
        simp [timer_resume, hf, hp, List.filterMap_cons, timer_resume_remaining instant now ts]
    · simp [timer_resume, hf, List.filterMap_cons, timer_resume_remaining instant now ts]

/-- Characterization of the `next_resume` fold: `none` exactly on the empty
accumulator and list, and a `some` result is the minimum of the accumulator
and all fire instants. -/
theorem next_resume_foldl :
    ∀ (l : List Timeout) (acc : Option Nat),
      (l.foldl next_resume_step acc = none ↔ acc = none ∧ l = []) ∧
      (∀ v, l.foldl next_resume_step acc = some v →
        (acc = some v ∨ v ∈ l.map (fun t => t.fire)) ∧
        (∀ w, acc = some w → v ≤ w) ∧
        (∀ t ∈ l, v ≤ t.fire))
  | [], acc => by
    constructor
    · simp
    · intro v hv
      simp only [List.foldl_nil] at hv
      exact ⟨Or.inl hv, fun w hw => by rw [hv] at hw; injection hw with h; omega,
        by simp⟩
  | t :: l, acc => by
    have ih := next_resume_foldl l (next_resume_step acc t)
    have hstep : ∃ u, next_resume_step acc t = some u ∧ u ≤ t.fire ∧
        (∀ w, acc = some w → u ≤ w) ∧ (u = t.fire ∨ acc = some u) := by
      cases acc with
      | none => exact ⟨t.fire, rfl, Nat.le_refl _, by simp, Or.inl rfl⟩
      | some m =>
        refine ⟨min m t.fire, rfl, Nat.min_le_right _ _, ?_, ?_⟩
        · intro w hw
          injection hw with hw
          subst hw
          exact Nat.min_le_left _ _
        · rcases Nat.le_total m t.fire with hmt | hmt
          · exact Or.inr (by rw [Nat.min_eq_left hmt])
          · exact Or.inl (Nat.min_eq_right hmt)
    obtain ⟨u, hu, hut, huw, hcase⟩ := hstep
    constructor
    · rw [List.foldl_cons]
      constructor
      · intro hnone
        have := (ih.1).mp hnone
        rw [hu] at this
        cases this.1
      · intro hfalse
        cases hfalse.2
    · intro v hv
      rw [List.foldl_cons] at hv
      obtain ⟨hmem, hmin, hall⟩ := ih.2 v hv
      have hvu : v ≤ u := hmin u hu
      refine ⟨?_, ?_, ?_⟩
      · rcases hmem with hm | hm
        · rw [hu] at hm
          injection hm with hm
          subst hm
          rcases hcase with hc | hc
          · exact Or.inr (by simp [hc])
          · exact Or.inl hc
        · exact Or.inr (by simp [hm])
      · intro w hw
        exact Nat.le_trans hvu (huw w hw)
      · intro x hx
        rcases List.mem_cons.mp hx with hx | hx
        · subst hx
          exact Nat.le_trans hvu hut
        · exact hall x hx


/-- C7 counterexample. The claim states that at a timer-resume call at the
computed next wake instant, every entry whose fire instant is at or before
now fires. With entries due at 10 and 15, next wake 10 and now = 20: the
entry due at 15 is at or before now but does not fire — only callback 0
fires and the 15-entry survives untouched. -/
theorem c7_due_entry_not_fired :
    next_resume [⟨0, 10, none⟩, ⟨1, 15, none⟩] = some 10 ∧
    (10 : Nat) ≤ 20 ∧ (15 : Nat) ≤ 20 ∧
    timer_resume 10 20 [⟨0, 10, none⟩, ⟨1, 15, none⟩] = ([⟨1, 15, none⟩], [0]) := by
  refine ⟨rfl, by decide, by decide, rfl⟩

/-- C7 (amended): at a timer-resume call with wake instant `instant` and
current time `now`: exactly the entries whose fire instant EQUALS the wake
instant fire (in scan order) — entries due strictly between the wake
instant and `now` do not fire at this call (they are picked up by the
returned next wake); each fired periodic entry survives with its fire
instant advanced by whole periods to the least value beyond `now`; each
fired one-shot entry is removed; all other entries survive unchanged; and
the returned next wake instant is the minimum fire instant of the
remaining entries (`none` when none remain). -/
theorem c7_timer_resume (instant now : Nat) (ts : List Timeout) :
    (timer_resume instant now ts).2 =
      (ts.filter (fun t => t.fire == instant)).map (fun t => t.cb) ∧
    (timer_resume instant now ts).1 = ts.filterMap (fun t =>
      if t.fire = instant then
        match t.period with
        | some d => some { t with fire := advance t.fire d now }
        | none => none
      else some t) ∧
    (∀ t : Timeout, t ∈ ts → t.fire = instant → ∀ d, t.period = some d → 0 < d →
      now < advance t.fire d now ∧
      (∃ k, advance t.fire d now = t.fire + d * k) ∧
      (t.fire ≤ now + d → advance t.fire d now ≤ now + d) ∧
      (now < t.fire → advance t.fire d now = t.fire)) ∧
    (next_resume (timer_resume instant now ts).1 = none ↔
      (timer_resume instant now ts).1 = []) ∧
    (∀ v, next_resume (timer_resume instant now ts).1 = some v →
      v ∈ (timer_resume instant now ts).1.map (fun t => t.fire) ∧
      ∀ t ∈ (timer_resume instant now ts).1, v ≤ t.fire) := by
  refine ⟨timer_resume_fired instant now ts, timer_resume_remaining instant now ts,
    ?_, ?_, ?_⟩
  · intro t _ _ d _ hd
    exact ⟨advance_gt d now hd t.fire, advance_add_multiple d now t.fire,
      advance_le d now t.fire, advance_of_gt t.fire d now⟩
  · have h := (next_resume_foldl (timer_resume instant now ts).1 none).1
    unfold next_resume
    rw [h]
    simp
  · intro v hv
    have h := (next_resume_foldl (timer_resume instant now ts).1 none).2 v
      (by simpa [next_resume] using hv)
    refine ⟨?_, h.2.2⟩
    rcases h.1 with hc | hc
    · cases hc
    · exact hc

/-- C7 amended-claim witness: wake instant 5, now 9 — the periodic entry
due at 5 fires and is rescheduled past now by whole periods of 3; the
entry due at 7 does not fire. -/
theorem c7_timer_resume_witness :
    (timer_resume 5 9 [⟨0, 5, some 3⟩, ⟨1, 7, none⟩]).2 = [0] ∧
    9 < advance 5 3 9 ∧
    (∃ k, advance 5 3 9 = 5 + 3 * k) := by
  have h := c7_timer_resume 5 9 [⟨0, 5, some 3⟩, ⟨1, 7, none⟩]
  refine ⟨?_, ?_, ?_⟩
  · rw [h.1]
    rfl
  · exact (h.2.2.1 ⟨0, 5, some 3⟩ (by decide) rfl 3 rfl (by decide)).1
  · exact (h.2.2.1 ⟨0, 5, some 3⟩ (by decide) rfl 3 rfl (by decide)).2.1

end Kas
